import Mathlib

/-!
Shallow embedding of `heredity.py`: exact Bayesian-network inference over a
pedigree by exhaustive enumeration.  Python floats are embedded as exact
rationals (ℚ); Python sets of names are embedded as lists of strings with
decidable membership; the dictionary of per-person accumulators is embedded
as an association list in population order (Python dictionaries iterate in
insertion order).  Python code that can raise an exception (the divisions in
`normalize`, which raise ZeroDivisionError on a zero sum) is embedded with
`Except`.
-/

namespace Heredity

/-- A record of the population dictionary built by `load_data`: a name, the
optional mother and father names, and the optional observed trait. -/
structure Person where
  name : String
  mother : Option String
  father : Option String
  trait : Option Bool
deriving DecidableEq

/-- `PROBS["gene"]`: the unconditional gene-count probabilities.  An argument
outside {0, 1, 2} would be a KeyError in Python; it is unreachable because
`getGene` only returns 0, 1 or 2, and is mapped to the junk value 0. -/
def PROBS_gene : ℕ → ℚ
  | 0 => 96/100
  | 1 => 3/100
  | 2 => 1/100
  | _ + 3 => 0

/-- `PROBS["trait"]`: probability of the observed trait value given the gene
count.  Arguments outside {0, 1, 2} are unreachable (KeyError in Python) and
mapped to the junk value 0. -/
def PROBS_trait : ℕ → Bool → ℚ
  | 0, true => 1/100
  | 0, false => 99/100
  | 1, true => 56/100
  | 1, false => 44/100
  | 2, true => 65/100
  | 2, false => 35/100
  | _ + 3, _ => 0

/-- `PROBS["mutation"]`. -/
def PROBS_mutation : ℚ := 1/100

/-- Membership test of an optional name in a set of names: in the source,
`getGene` may be called with `None` (an absent parent), and `None in s` is
`False` for a Python set of strings. -/
def memOpt (p : Option String) (s : List String) : Bool :=
  match p with
  | none => false
  | some x => decide (x ∈ s)

/-- `getGene(person, one_gene, two_gene)`: 1 if the person is in `one_gene`,
else 2 if in `two_gene`, else 0. -/
def getGene (person : Option String) (one_gene two_gene : List String) : ℕ :=
  if memOpt person one_gene then 1 else if memOpt person two_gene then 2 else 0

/-- `inherit(parent_gene, trait)`: the odds that a gamete of a parent with
`parent_gene` copies carries (when `trait` is true) or does not carry (when
false) the mutated allele.  The Python function reads the module constant
`PROBS["mutation"]`; an argument outside {0, 1, 2} falls through and returns
None in Python, unreachable because every call site passes a `getGene`
result, and mapped to the junk value 0. -/
def inherit (parent_gene : ℕ) (trait : Bool) : ℚ :=
  match parent_gene with
  | 0 => if trait then PROBS_mutation else 1 - PROBS_mutation
  | 1 => 1/2
  | 2 => if trait then 1 - PROBS_mutation else PROBS_mutation
  | _ + 3 => 0

/-- The body of `inherit` with the module constant `PROBS["mutation"]`
abstracted into a parameter `m`; `inherit` is this function applied at
`PROBS_mutation`.  The arm for one copy is the literal 0.5 and does not
mention `m`. -/
def inheritWithMutation (m : ℚ) (parent_gene : ℕ) (trait : Bool) : ℚ :=
  match parent_gene with
  | 0 => if trait then m else 1 - m
  | 1 => 1/2
  | 2 => if trait then 1 - m else m
  | _ + 3 => 0

/-- The factor contributed to `joint_probability` by one person whose branch
has both parents (the `else` branch of the loop body): the transmission
probability for the person gene count, times the trait probability. -/
def twoParentFactor (mom_genes dad_genes personGene : ℕ) (personTrait : Bool) : ℚ :=
  (if personGene = 0 then
    inherit mom_genes false * inherit dad_genes false
  else if personGene = 1 then
    inherit mom_genes true * inherit dad_genes false +
      inherit mom_genes false * inherit dad_genes true
  else if personGene = 2 then
    inherit mom_genes true * inherit dad_genes true
  else 1) * PROBS_trait personGene personTrait

/-- The factor the loop body of `joint_probability` multiplies into the
accumulator for one person: the founder branch when both parent references
are absent, the two-parent branch otherwise. -/
def personFactor (one_gene two_genes have_trait : List String) (p : Person) : ℚ :=
  match p.father, p.mother with
  | none, none =>
      PROBS_trait (getGene (some p.name) one_gene two_genes)
          (decide (p.name ∈ have_trait)) *
        PROBS_gene (getGene (some p.name) one_gene two_genes)
  | _, _ =>
      twoParentFactor (getGene p.mother one_gene two_genes)
        (getGene p.father one_gene two_genes)
        (getGene (some p.name) one_gene two_genes)
        (decide (p.name ∈ have_trait))

/-- `joint_probability(people, one_gene, two_genes, have_trait)`: starts at
1.0 and multiplies in the factor of every person of the population in
iteration order. -/
def joint_probability (people : List Person)
    (one_gene two_genes have_trait : List String) : ℚ :=
  people.foldl
    (fun probability person =>
      probability * personFactor one_gene two_genes have_trait person) 1

/-- `powerset(s)`: the list of all subsets of `s`.  The source enumerates the
subsets by increasing size via itertools.combinations; this embedding
produces each subset exactly once in a different order, which is immaterial
because every consumer folds a commutative sum over the whole list or tests
membership one subset at a time. -/
def powerset : List String → List (List String)
  | [] => [[]]
  | x :: xs => powerset xs ++ (powerset xs).map (fun s => x :: s)

/-- The pairs `(one_gene, two_genes)` produced by the two nested gene loops
of `main`: `one_gene` ranges over the power set of the names and `two_genes`
over the power set of the names minus `one_gene`. -/
def genePairs (names : List String) : List (List String × List String) :=
  (powerset names).flatMap (fun one_gene =>
    (powerset (names.filter (fun n => ! decide (n ∈ one_gene)))).map
      (fun two_genes => (one_gene, two_genes)))

/-- The `fails_evidence` test of `main`: some person has a known trait that
differs from membership of the candidate `have_trait` set. -/
def failsEvidence (people : List Person) (have_trait : List String) : Bool :=
  people.any (fun p =>
    match p.trait with
    | none => false
    | some t => t != decide (p.name ∈ have_trait))

/-- The `have_trait` subsets that survive the `continue` of `main`: the power
set of the names, filtered by the evidence test. -/
def processedTraitSets (people : List Person) : List (List String) :=
  (powerset (people.map Person.name)).filter
    (fun ht => ! failsEvidence people ht)

/-- Per-person accumulator: the three gene-count buckets and the two trait
buckets of the `probabilities` dictionary of `main`. -/
structure Accum where
  gene0 : ℚ
  gene1 : ℚ
  gene2 : ℚ
  traitT : ℚ
  traitF : ℚ
deriving DecidableEq

/-- The zero-initialized `probabilities` dictionary of `main`, in population
order. -/
def initProb (people : List Person) : List (String × Accum) :=
  people.map (fun p => (p.name, ⟨0, 0, 0, 0, 0⟩))

/-- The two `+= p` statements of `update` for one person: add `p` to the gene
bucket selected by `getGene` and to the trait bucket selected by membership
in `have_trait`. -/
def updateAcc (one_gene two_genes have_trait : List String) (p : ℚ)
    (name : String) (a : Accum) : Accum :=
  { gene0 := if getGene (some name) one_gene two_genes = 0 then a.gene0 + p else a.gene0
    gene1 := if getGene (some name) one_gene two_genes = 1 then a.gene1 + p else a.gene1
    gene2 := if getGene (some name) one_gene two_genes = 2 then a.gene2 + p else a.gene2
    traitT := if decide (name ∈ have_trait) then a.traitT + p else a.traitT
    traitF := if decide (name ∈ have_trait) then a.traitF else a.traitF + p }

/-- `update(probabilities, one_gene, two_genes, have_trait, p)`: every person
of the table gets both buckets of the current hypothesis increased by `p`. -/
def update (probabilities : List (String × Accum))
    (one_gene two_genes have_trait : List String) (p : ℚ) :
    List (String × Accum) :=
  probabilities.map (fun e => (e.1, updateAcc one_gene two_genes have_trait p e.1 e.2))

/-- `sum(probabilities[person]["gene"].values())`. -/
def geneSum (a : Accum) : ℚ := a.gene2 + a.gene1 + a.gene0

/-- `sum(probabilities[person]["trait"].values())`. -/
def traitSum (a : Accum) : ℚ := a.traitT + a.traitF

/-- The outcome of the divisions of `normalize`: in Python a zero divisor
raises an unhandled ZeroDivisionError.  The constructor `emptyEvidenceSet`
is the distinct reportable error of the specification error taxonomy
(Modelled from the spec: the source contains no such error); the translated
code never produces it. -/
inductive NormError where
  | zeroDivisionError : NormError
  | emptyEvidenceSet : NormError
deriving DecidableEq

/-- The accumulator after the division loops of `normalize`, when both
divisors are nonzero: every bucket divided by the sum of its distribution. -/
def normedAcc (a : Accum) : Accum :=
  { gene0 := a.gene0 / geneSum a
    gene1 := a.gene1 / geneSum a
    gene2 := a.gene2 / geneSum a
    traitT := a.traitT / traitSum a
    traitF := a.traitF / traitSum a }

/-- The body of `normalize` for one person: compute the two sums, then divide
the trait buckets and the gene buckets.  The source performs the trait
divisions first, so a zero trait sum raises before a zero gene sum; the
divisions carry no zero test, so Python raises an unhandled
ZeroDivisionError, embedded as `Except.error`. -/
def normalizeAcc (a : Accum) : Except NormError Accum :=
  if traitSum a = 0 then Except.error NormError.zeroDivisionError
  else if geneSum a = 0 then Except.error NormError.zeroDivisionError
  else Except.ok (normedAcc a)

/-- `normalize(probabilities)`: rescale every person in iteration order; the
first zero-sum division aborts the run with the exception. -/
def normalize : List (String × Accum) → Except NormError (List (String × Accum))
  | [] => Except.ok []
  | e :: rest =>
    match normalizeAcc e.2 with
    | Except.error err => Except.error err
    | Except.ok a =>
      match normalize rest with
      | Except.error err => Except.error err
      | Except.ok res => Except.ok ((e.1, a) :: res)

/-- The enumeration loops of `main`: over every surviving `have_trait`
subset, over every `(one_gene, two_genes)` pair, accumulate the joint
probability of the hypothesis into every person buckets. -/
def runEnumeration (people : List Person) : List (String × Accum) :=
  (processedTraitSets people).foldl
    (fun probs have_trait =>
      (genePairs (people.map Person.name)).foldl
        (fun probs2 pr =>
          update probs2 pr.1 pr.2 have_trait
            (joint_probability people pr.1 pr.2 have_trait))
        probs)
    (initProb people)

/-- The inference run of `main` without the I/O glue: enumerate, accumulate,
then normalize. -/
def infer (people : List Person) : Except NormError (List (String × Accum)) :=
  normalize (runEnumeration people)

/-- The gene count of the specification: 1 if the person is in `one_gene`, 2
if in `two_genes`, else 0. -/
def specGeneCount (one_gene two_genes : List String) (name : String) : ℕ :=
  if name ∈ one_gene then 1 else if name ∈ two_genes then 2 else 0

/-- The one-argument inheritance probability of the specification: the
probability that a transmitted gamete carries the mutated allele, `m` for
count 0, one half for count 1, `1 - m` for count 2. -/
def specInherit (g : ℕ) : ℚ :=
  if g = 0 then PROBS_mutation
  else if g = 1 then 1/2
  else if g = 2 then 1 - PROBS_mutation
  else 0

/-- The per-person factor exactly as the specification words it: for a
founder the prior `P(g)` times `P(t|g)`; for a person with both parents the
transmission probability written with the one-argument `specInherit` and its
complements, times `P(t|g)`.  The half-specified arm is excluded by the
both-or-neither hypothesis and mapped to the junk value 0. -/
def specFactor (one_gene two_genes have_trait : List String) (p : Person) : ℚ :=
  match p.mother, p.father with
  | none, none =>
      PROBS_gene (specGeneCount one_gene two_genes p.name) *
        PROBS_trait (specGeneCount one_gene two_genes p.name)
          (decide (p.name ∈ have_trait))
  | some m, some f =>
      (if specGeneCount one_gene two_genes p.name = 0 then
        (1 - specInherit (specGeneCount one_gene two_genes m)) *
          (1 - specInherit (specGeneCount one_gene two_genes f))
      else if specGeneCount one_gene two_genes p.name = 1 then
        specInherit (specGeneCount one_gene two_genes m) *
            (1 - specInherit (specGeneCount one_gene two_genes f)) +
          (1 - specInherit (specGeneCount one_gene two_genes m)) *
            specInherit (specGeneCount one_gene two_genes f)
      else
        specInherit (specGeneCount one_gene two_genes m) *
          specInherit (specGeneCount one_gene two_genes f)) *
        PROBS_trait (specGeneCount one_gene two_genes p.name)
          (decide (p.name ∈ have_trait))
  | _, _ => 0

-- Helper lemmas

/-- Folding a running product equals the initial value times the list
product of the factors. -/
theorem foldl_mul_eq_prod (l : List Person) (f : Person → ℚ) (c : ℚ) :
    l.foldl (fun a x => a * f x) c = c * (l.map f).prod := by
  induction l generalizing c with
  | nil => simp
  | cons x xs ih =>
    simp only [List.foldl_cons, List.map_cons, List.prod_cons, ih, mul_assoc]

/-- `getGene` only returns 0, 1 or 2. -/
theorem getGene_le_two (p : Option String) (og tg : List String) :
    getGene p og tg ≤ 2 := by
  unfold getGene
  split
  · omega
  · split <;> omega

/-- The complement relation between the two trait arguments of `inherit`, on
the reachable domain. -/
theorem inherit_complement (g : ℕ) (hg : g ≤ 2) :
    inherit g false = 1 - inherit g true := by
  interval_cases g <;> norm_num [inherit, PROBS_mutation]

/-- On the reachable domain, the specification one-argument calculator is
the code two-argument calculator applied at `true`. -/
theorem specInherit_eq_inherit_true (g : ℕ) (hg : g ≤ 2) :
    specInherit g = inherit g true := by
  interval_cases g <;> simp [specInherit, inherit]

/-- The specification gene count agrees with `getGene` on a present name. -/
theorem specGeneCount_eq_getGene (og tg : List String) (n : String) :
    specGeneCount og tg n = getGene (some n) og tg := by
  simp [specGeneCount, getGene, memOpt]

/-- One person whose parent references are both present or both absent
contributes the same factor in the code and in the specification. -/
theorem personFactor_eq_specFactor (og tg ht : List String) (p : Person)
    (h : (p.mother = none ∧ p.father = none) ∨
      (p.mother ≠ none ∧ p.father ≠ none)) :
    personFactor og tg ht p = specFactor og tg ht p := by
  rcases hm : p.mother with _ | m <;> rcases hf : p.father with _ | f
  · simp [personFactor, specFactor, hm, hf, specGeneCount_eq_getGene, mul_comm]
  · rcases h with ⟨_, h2⟩ | ⟨h1, _⟩ <;> simp_all
  · rcases h with ⟨h1, _⟩ | ⟨_, h2⟩ <;> simp_all
  · simp only [personFactor, specFactor, hm, hf, specGeneCount_eq_getGene]
    have hgm := getGene_le_two (some m) og tg
    have hgf := getGene_le_two (some f) og tg
    have hg := getGene_le_two (some p.name) og tg
    rw [specInherit_eq_inherit_true _ hgm, specInherit_eq_inherit_true _ hgf,
      ← inherit_complement _ hgm, ← inherit_complement _ hgf]
    unfold twoParentFactor
    interval_cases h : getGene (some p.name) og tg <;> norm_num

/-- Every member of `powerset l` draws its elements from `l`. -/
theorem mem_of_mem_powerset (l s : List String) (hs : s ∈ powerset l) :
    ∀ x ∈ s, x ∈ l := by
  induction l generalizing s with
  | nil =>
    simp only [powerset, List.mem_singleton] at hs
    subst hs
    simp
  | cons a l ih =>
    simp only [powerset, List.mem_append, List.mem_map] at hs
    rcases hs with hs | ⟨t, ht, rfl⟩
    · intro x hx
      exact List.mem_cons_of_mem a (ih s hs x hx)
    · intro x hx
      rcases List.mem_cons.mp hx with rfl | hx
      · exact List.mem_cons_self x l
      · exact List.mem_cons_of_mem a (ih t ht x hx)

/-- A `normalizeAcc` error is always the division-by-zero outcome. -/
theorem normalizeAcc_error (a : Accum) (e : NormError)
    (h : normalizeAcc a = Except.error e) : e = NormError.zeroDivisionError := by
  unfold normalizeAcc at h
  split at h
  · exact (Except.error.injEq _ _).mp h |>.symm
  · split at h
    · exact (Except.error.injEq _ _).mp h |>.symm
    · exact absurd h (by simp)

/-- A zero sum in either distribution makes `normalizeAcc` raise the
division-by-zero error. -/
theorem normalizeAcc_zero (a : Accum)
    (h : traitSum a = 0 ∨ geneSum a = 0) :
    normalizeAcc a = Except.error NormError.zeroDivisionError := by
  unfold normalizeAcc
  rcases h with h | h
  · simp [h]
  · by_cases h2 : traitSum a = 0 <;> simp [h, h2]

/-- With nonzero sums, `normalizeAcc` succeeds with the divided buckets. -/
theorem normalizeAcc_ok (a : Accum)
    (hg : geneSum a ≠ 0) (ht : traitSum a ≠ 0) :
    normalizeAcc a = Except.ok (normedAcc a) := by
  unfold normalizeAcc
  simp [hg, ht]

/-- With strictly positive sums for every entry, `normalize` succeeds and
returns every bucket divided by its pre-normalization sum. -/
theorem normalize_ok_of_pos (probs : List (String × Accum))
    (hg : ∀ e ∈ probs, 0 < geneSum e.2)
    (htr : ∀ e ∈ probs, 0 < traitSum e.2) :
    normalize probs = Except.ok (probs.map (fun e => (e.1, normedAcc e.2))) := by
  induction probs with
  | nil => rfl
  | cons e rest ih =>
    have h1 : normalizeAcc e.2 = Except.ok (normedAcc e.2) :=
      normalizeAcc_ok e.2 (hg e (List.mem_cons_self e rest)).ne'
        (htr e (List.mem_cons_self e rest)).ne'
    have h2 := ih (fun x hx => hg x (List.mem_cons_of_mem e hx))
      (fun x hx => htr x (List.mem_cons_of_mem e hx))
    simp only [normalize, h1, h2, List.map_cons]

-- Claim theorems

/-- Claim C1: for a population whose persons each have both parent
references or neither, and a disjoint pair `one_gene`, `two_genes` and any
`have_trait` set, `joint_probability` returns the product, over every person
visited exactly once, of the factor the specification describes: prior times
trait probability for a founder, and the transmission probability of the
child gene count (written with the one-argument inheritance probability and
its complements) times the trait probability for a person with both
parents. -/
theorem jointProbability_spec_product (people : List Person)
    (one_gene two_genes have_trait : List String)
    (hpar : ∀ p ∈ people, (p.mother = none ∧ p.father = none) ∨
      (p.mother ≠ none ∧ p.father ≠ none))
    (_hdisj : ∀ x ∈ one_gene, x ∉ two_genes) :
    joint_probability people one_gene two_genes have_trait =
      (people.map (specFactor one_gene two_genes have_trait)).prod := by
  unfold joint_probability
  rw [foldl_mul_eq_prod, one_mul]
  exact congrArg List.prod (List.map_congr_left fun p hp =>
    personFactor_eq_specFactor one_gene two_genes have_trait p (hpar p hp))

/-- Witness for C1: a trio — two founders and a child with both parents —
at a concrete hypothesis. -/
theorem jointProbability_spec_product_witness :
    joint_probability
        [{ name := "Lily", mother := none, father := none, trait := none },
         { name := "James", mother := none, father := none, trait := none },
         { name := "Harry", mother := some "Lily", father := some "James", trait := none }]
        ["Harry"] ["Lily"] ["Harry", "Lily"] =
      (([{ name := "Lily", mother := none, father := none, trait := none },
         { name := "James", mother := none, father := none, trait := none },
         { name := "Harry", mother := some "Lily", father := some "James", trait := none }].map
        (specFactor ["Harry"] ["Lily"] ["Harry", "Lily"])).prod) :=
  jointProbability_spec_product _ _ _ _ (by decide) (by decide)

/-- Claim C2: a single founder with unknown trait yields exactly the prior
gene distribution and the marginal trait distribution.  The equalities are
exact in the rational embedding. -/
theorem founder_prior_recovery :
    infer [{ name := "Harry", mother := none, father := none, trait := none }] =
      Except.ok [("Harry",
        { gene0 := 96/100, gene1 := 3/100, gene2 := 1/100,
          traitT := 96/100 * (1/100) + 3/100 * (56/100) + 1/100 * (65/100),
          traitF := 1 - (96/100 * (1/100) + 3/100 * (56/100) + 1/100 * (65/100)) })] := by
  norm_num [infer, runEnumeration, processedTraitSets, powerset, failsEvidence, genePairs,
    initProb, update, updateAcc, joint_probability, personFactor, twoParentFactor, getGene,
    memOpt, inherit, PROBS_gene, PROBS_trait, PROBS_mutation, normalize, normalizeAcc,
    normedAcc, geneSum, traitSum]

/-- Claim C3: the inheritance calculator returns the mutation probability
for parent gene count 0, exactly one half for count 1 — independently of the
mutation probability, shown on the body with the constant abstracted — and
one minus the mutation probability for count 2. -/
theorem inherit_calculator_values :
    inherit 0 true = PROBS_mutation ∧
      inherit 1 true = 1/2 ∧
      inherit 2 true = 1 - PROBS_mutation ∧
      (∀ m : ℚ, inheritWithMutation m 1 true = 1/2) ∧
      ∀ g t, inherit g t = inheritWithMutation PROBS_mutation g t := by
  refine ⟨rfl, rfl, rfl, fun m => rfl, fun g t => ?_⟩
  rcases g with _ | _ | _ | g <;> rfl

/-- Claim C4: every `have_trait` subset that survives the evidence filter —
the only subsets for which `runEnumeration` computes and accumulates joint
probabilities — agrees with every known observation: a person with a known
trait is a member exactly when the observation is true. -/
theorem processed_trait_sets_respect_evidence (people : List Person)
    (ht : List String) (hmem : ht ∈ processedTraitSets people) :
    ∀ p ∈ people, ∀ t, p.trait = some t → ((p.name ∈ ht) ↔ t = true) := by
  intro p hp t htrait
  have h1 : failsEvidence people ht = false := by
    have h := List.mem_filter.mp hmem
    simpa using h.2
  rw [failsEvidence, List.any_eq_false] at h1
  have h3 := h1 p hp
  rw [htrait] at h3
  simp only [bne, Bool.not_eq_true', Bool.not_eq_false] at h3
  have h4 : t = decide (p.name ∈ ht) := by simpa using h3
  rw [h4]
  simp

/-- Witness for C4: a one-person population with an observed true trait; the
surviving subset contains the person. -/
theorem processed_trait_sets_respect_evidence_witness :
    ("A" ∈ ["A"]) ↔ (true = true) :=
  processed_trait_sets_respect_evidence
    [{ name := "A", mother := none, father := none, trait := some true }]
    ["A"] (by decide)
    { name := "A", mother := none, father := none, trait := some true }
    (by simp) true rfl

/-- Claim C5: every pair generated by the nested gene loops is disjoint,
because the second component ranges over the power set of the names with the
first component removed. -/
theorem genePairs_disjoint (names : List String)
    (pr : List String × List String) (hpr : pr ∈ genePairs names) :
    ∀ x ∈ pr.1, x ∉ pr.2 := by
  intro x hx1 hx2
  simp only [genePairs, List.mem_flatMap, List.mem_map] at hpr
  obtain ⟨og, hog, tg, htg, rfl⟩ := hpr
  have hx3 := mem_of_mem_powerset _ tg htg x hx2
  rw [List.mem_filter] at hx3
  have hx4 := hx3.2
  simp only [Bool.not_eq_true', decide_eq_false_iff_not] at hx4
  exact hx4 hx1

/-- Witness for C5: the pair with everything in `one_gene` and nothing left
for `two_genes`, for a one-name population. -/
theorem genePairs_disjoint_witness : "A" ∉ (["A"], ([] : List String)).2 :=
  genePairs_disjoint ["A"] (["A"], []) (by decide) "A" (by simp)

/-- Counterexample for C6: on a zero accumulator the translated `normalize`
does not surface the distinct EmptyEvidenceSet error of the specification;
it hits an unchecked division by zero. -/
theorem normalize_not_emptyEvidenceSet :
    normalize [("Harry", ⟨0, 0, 0, 0, 0⟩)] ≠
      Except.error NormError.emptyEvidenceSet := by
  norm_num [normalize, normalizeAcc, traitSum]
  decide

/-- Claim C6 as amended: `normalize` performs no zero test before dividing;
an entry whose trait buckets or gene buckets sum to zero makes the run abort
with the unhandled division-by-zero error, never a distinct EmptyEvidenceSet
error. -/
theorem normalize_zero_sum_division_error (probs : List (String × Accum))
    (h : ∃ e ∈ probs, traitSum e.2 = 0 ∨ geneSum e.2 = 0) :
    normalize probs = Except.error NormError.zeroDivisionError := by
  induction probs with
  | nil => simp at h
  | cons e rest ih =>
    obtain ⟨w, hw, hwsum⟩ := h
    rcases List.mem_cons.mp hw with rfl | hw2
    · simp only [normalize, normalizeAcc_zero w.2 hwsum]
    · cases hacc : normalizeAcc e.2 with
      | error err =>
        have herr := normalizeAcc_error e.2 err hacc
        rw [herr] at hacc
        simp only [normalize, hacc]
      | ok a =>
        have hrest := ih ⟨w, hw2, hwsum⟩
        simp only [normalize, hacc, hrest]

/-- Witness for the amended C6: the all-zero accumulator. -/
theorem normalize_zero_sum_division_error_witness :
    normalize [("P", ⟨0, 0, 0, 0, 0⟩)] =
      Except.error NormError.zeroDivisionError :=
  normalize_zero_sum_division_error [("P", ⟨0, 0, 0, 0, 0⟩)]
    ⟨("P", ⟨0, 0, 0, 0, 0⟩), by simp, Or.inl (by norm_num [traitSum])⟩

/-- Claim C7: with strictly positive per-person sums, `normalize` succeeds,
every bucket equals its accumulated value divided by the pre-normalization
sum of its distribution, and the three gene buckets and the two trait
buckets each sum exactly to 1 — exactness in ℚ subsumes the stated
floating-point tolerance of 1e-9. -/
theorem normalize_postcondition (probs : List (String × Accum))
    (hg : ∀ e ∈ probs, 0 < geneSum e.2)
    (htr : ∀ e ∈ probs, 0 < traitSum e.2) :
    normalize probs = Except.ok (probs.map (fun e => (e.1, normedAcc e.2))) ∧
      ∀ e ∈ probs, geneSum (normedAcc e.2) = 1 ∧ traitSum (normedAcc e.2) = 1 := by
  refine ⟨normalize_ok_of_pos probs hg htr, fun e he => ⟨?_, ?_⟩⟩
  · have h := (hg e he).ne'
    rw [geneSum, normedAcc]
    simp only
    rw [div_add_div_same, div_add_div_same, ← geneSum, div_self h]
  · have h := (htr e he).ne'
    rw [traitSum, normedAcc]
    simp only
    rw [div_add_div_same, ← traitSum, div_self h]

/-- Witness for C7: a concrete accumulator with positive sums. -/
theorem normalize_postcondition_witness :
    normalize [("P", ⟨1, 2, 3, 4, 5⟩)] =
        Except.ok ([("P", (⟨1, 2, 3, 4, 5⟩ : Accum))].map
          (fun e => (e.1, normedAcc e.2))) ∧
      ∀ e ∈ [("P", (⟨1, 2, 3, 4, 5⟩ : Accum))],
        geneSum (normedAcc e.2) = 1 ∧ traitSum (normedAcc e.2) = 1 :=
  normalize_postcondition [("P", ⟨1, 2, 3, 4, 5⟩)]
    (by intro e he; simp at he; rw [he]; norm_num [geneSum])
    (by intro e he; simp at he; rw [he]; norm_num [traitSum])

/-- Claim C8: the empty population raises no error and yields the empty
output: the trait enumeration is the single empty subset, the gene
enumeration the single pair of empty sets, and the result table is empty. -/
theorem empty_population_empty_output :
    infer [] = Except.ok [] ∧
      processedTraitSets [] = [[]] ∧
      genePairs [] = [([], [])] := by
  refine ⟨?_, rfl, rfl⟩
  norm_num [infer, runEnumeration, processedTraitSets, powerset, failsEvidence, genePairs,
    initProb, update, joint_probability, normalize]

/-- Claim C9: on the reachable domain the false branch of `inherit` is the
exact complement of the true branch, so the code factor for a zero-copy
child equals the complemented product the specification writes. -/
theorem inherit_false_is_complement (g gm gf : ℕ)
    (hg : g ≤ 2) (hgm : gm ≤ 2) (hgf : gf ≤ 2) :
    inherit g false = 1 - inherit g true ∧
      inherit gm false * inherit gf false =
        (1 - specInherit gm) * (1 - specInherit gf) := by
  refine ⟨inherit_complement g hg, ?_⟩
  rw [specInherit_eq_inherit_true gm hgm, specInherit_eq_inherit_true gf hgf,
    ← inherit_complement gm hgm, ← inherit_complement gf hgf]

/-- Witness for C9 at gene counts 0, 1 and 2. -/
theorem inherit_false_is_complement_witness :
    inherit 0 false = 1 - inherit 0 true ∧
      inherit 1 false * inherit 2 false =
        (1 - specInherit 1) * (1 - specInherit 2) :=
  inherit_false_is_complement 0 1 2 (by norm_num) (by norm_num) (by norm_num)

/-- Claim C10: a person with exactly one parent reference set makes
`joint_probability` take the two-parent branch without error — the
translated factor is total — and the absent parent, `None`, is not a member
of `one_gene` or `two_genes`, so it is silently treated as a parent with
gene count 0. -/
theorem half_pedigree_two_parent_branch (one_gene two_genes have_trait : List String)
    (p : Person)
    (h : (p.mother ≠ none ∧ p.father = none) ∨
      (p.mother = none ∧ p.father ≠ none)) :
    joint_probability [p] one_gene two_genes have_trait =
      twoParentFactor (getGene p.mother one_gene two_genes)
        (getGene p.father one_gene two_genes)
        (getGene (some p.name) one_gene two_genes)
        (decide (p.name ∈ have_trait)) ∧
      getGene none one_gene two_genes = 0 := by
  have hj : joint_probability [p] one_gene two_genes have_trait =
      personFactor one_gene two_genes have_trait p := by
    simp [joint_probability]
  refine ⟨?_, rfl⟩
  rw [hj]
  rcases hm : p.mother with _ | m <;> rcases hf : p.father with _ | f
  · rcases h with ⟨h1, _⟩ | ⟨_, h2⟩ <;> simp_all
  · simp [personFactor, hm, hf]
  · simp [personFactor, hm, hf]
  · rcases h with ⟨_, h2⟩ | ⟨h1, _⟩ <;> simp_all

/-- Witness for C10: a child with a mother reference and no father
reference. -/
theorem half_pedigree_two_parent_branch_witness :
    joint_probability
        [{ name := "Child", mother := some "Mom", father := none, trait := none }]
        ["Mom"] [] [] =
      twoParentFactor (getGene (some "Mom") ["Mom"] []) (getGene none ["Mom"] [])
        (getGene (some "Child") ["Mom"] [])
        (decide ("Child" ∈ ([] : List String))) ∧
      getGene none ["Mom"] [] = 0 :=
  half_pedigree_two_parent_branch ["Mom"] [] []
    { name := "Child", mother := some "Mom", father := none, trait := none }
    (Or.inl ⟨by simp, rfl⟩)

end Heredity
